import Mathlib

/-!
Verification development for the ChiaCheck bill-splitting calculator.

The development shallowly embeds the calculation engine (`CalculationEngine` in
the calculation module) and the cost-distribution part of the analytics module
(`AnalyticsManager`).

Modelling conventions:
* JavaScript numbers are modelled by exact rational arithmetic (`ℚ`) together
  with the IEEE special values (signed infinity, NaN, negative zero) tracked
  symbolically by the `JSNum` type.  Binary floating-point rounding error is
  outside the model.
* The arithmetic sub-language accepted by the expression evaluator is modelled
  over decimal literals, binary `+ - * /`, unary `+ -` and parentheses, with
  the maximal-munch lexing quirks that make `++`, `--`, `**`, `//` and `/*`
  evaluation failures.  JavaScript exponentiation (`**`), comment sequences
  and legacy octal integer literals are outside the modelled subset.
* Stateful JavaScript (the two-pointer settlement loop, the tip calculation's
  work on a cloned session) is translated to explicit state passing: the
  settlement loop returns its final arrays and iteration count next to the
  emitted suggestions, and `calculateWithTip` returns the state of the
  caller's session object alongside its result.
* Absent (`undefined`/`null`) values are modelled with `Option`; a JavaScript
  input that may be a string, a number or null is modelled by `ExprInput`.
-/

/-- Input to `parseExpression`: the source receives member advances and item
prices that are either strings, numbers (e.g. tip items synthesized by
`calculateWithTip`) or absent. -/
inductive ExprInput where
  | null
  | num (value : ℚ)
  | str (text : String)
deriving DecidableEq

/-- A JavaScript number: a finite value (with `fin 0` standing for `+0`),
negative zero, a signed infinity, or NaN. -/
inductive JSNum where
  | fin (q : ℚ)
  | nzero
  | inf (pos : Bool)
  | nan
deriving DecidableEq

/-- Whether the value is `+0` or `-0`. -/
def JSNum.isZero : JSNum → Bool
  | .fin q => q == 0
  | .nzero => true
  | _ => false

/-- Sign used by IEEE multiplication/division rules; `+0` counts as positive,
`-0` as negative.  (The value returned for NaN is never used.) -/
def JSNum.signPos : JSNum → Bool
  | .fin q => decide (0 ≤ q)
  | .nzero => false
  | .inf p => p
  | .nan => true

/-- The `isFinite` test of the source's result check. -/
def JSNum.isFinite : JSNum → Bool
  | .fin _ => true
  | .nzero => true
  | _ => false

/-- The rational value of a finite JavaScript number (`-0` reads back as 0). -/
def JSNum.toQ : JSNum → ℚ
  | .fin q => q
  | _ => 0

/-- IEEE negation. -/
def JSNum.neg : JSNum → JSNum
  | .fin q => if q = 0 then .nzero else .fin (-q)
  | .nzero => .fin 0
  | .inf p => .inf (!p)
  | .nan => .nan

/-- IEEE addition (round-to-nearest gives `+0` for `x + (-x)`). -/
def JSNum.add : JSNum → JSNum → JSNum
  | .nan, _ => .nan
  | _, .nan => .nan
  | .inf p, .inf q => if p == q then .inf p else .nan
  | .inf p, _ => .inf p
  | _, .inf p => .inf p
  | .nzero, .nzero => .nzero
  | .nzero, .fin b => .fin b
  | .fin a, .nzero => .fin a
  | .fin a, .fin b => .fin (a + b)

/-- IEEE subtraction, `a - b = a + (-b)`. -/
def JSNum.sub (a b : JSNum) : JSNum := a.add b.neg

/-- IEEE multiplication. -/
def JSNum.mul : JSNum → JSNum → JSNum
  | .nan, _ => .nan
  | _, .nan => .nan
  | .inf p, b => if b.isZero then .nan else .inf (p == b.signPos)
  | a, .inf p => if a.isZero then .nan else .inf (a.signPos == p)
  | a, b =>
    let q := a.toQ * b.toQ
    if q = 0 then (if a.signPos == b.signPos then .fin 0 else .nzero) else .fin q

/-- IEEE division (division by zero yields a signed infinity, `0/0` NaN). -/
def JSNum.div : JSNum → JSNum → JSNum
  | .nan, _ => .nan
  | _, .nan => .nan
  | .inf _, .inf _ => .nan
  | .inf p, b => .inf (p == b.signPos)
  | a, .inf p => if a.signPos == p then .fin 0 else .nzero
  | a, b =>
    if b.isZero then (if a.isZero then .nan else .inf (a.signPos == b.signPos))
    else
      let q := a.toQ / b.toQ
      if q = 0 then (if a.signPos == b.signPos then .fin 0 else .nzero) else .fin q

/-- Tokens of the cleaned arithmetic expression language.  A numeric literal
keeps its integer and fraction digit runs; its rational value is taken by
`numValue` when the parser consumes it. -/
inductive Token where
  | num (intDigits fracDigits : List Char)
  | plus
  | minus
  | star
  | slash
  | lparen
  | rparen
deriving DecidableEq

/-- Maximal munch of a digit run. -/
def takeDigits : List Char → List Char × List Char
  | [] => ([], [])
  | c :: r =>
    if c.isDigit then
      let (d, rest) := takeDigits r
      (c :: d, rest)
    else ([], c :: r)

/-- Decimal value of a digit run. -/
def digitsToNat (ds : List Char) : ℕ :=
  ds.foldl (fun a c => 10 * a + (c.toNat - 48)) 0

/-- Value of a decimal literal with integer digits `ds1` and fraction digits
`ds2` (either may be empty, but not both). -/
def numValue (ds1 ds2 : List Char) : ℚ :=
  (digitsToNat ds1 : ℚ) + (digitsToNat ds2 : ℚ) / 10 ^ ds2.length

/-- Lexer for the cleaned expression, mirroring JavaScript's maximal-munch
tokenizer on the character set `[0-9 + - * / ( ) .]`.  The sequences `++` and
`--` lex as increment/decrement tokens, `**` as exponentiation and `//`, `/*`
as comment openers; none of them has a valid use in the evaluated expression
(a line comment swallows the closing parenthesis the source appends), so the
lexer reports failure for them.  Each token consumes at least one character,
so fuel `length + 1` always suffices. -/
def lexTokens : ℕ → List Char → Option (List Token)
  | _, [] => some []
  | 0, _ :: _ => none
  | f + 1, c :: cs =>
    if c = '+' then
      match cs with
      | '+' :: _ => none
      | _ => (Token.plus :: ·) <$> lexTokens f cs
    else if c = '-' then
      match cs with
      | '-' :: _ => none
      | _ => (Token.minus :: ·) <$> lexTokens f cs
    else if c = '*' then
      match cs with
      | '*' :: _ => none
      | _ => (Token.star :: ·) <$> lexTokens f cs
    else if c = '/' then
      match cs with
      | '/' :: _ => none
      | '*' :: _ => none
      | _ => (Token.slash :: ·) <$> lexTokens f cs
    else if c = '(' then (Token.lparen :: ·) <$> lexTokens f cs
    else if c = ')' then (Token.rparen :: ·) <$> lexTokens f cs
    else
      let (ds1, r1) := takeDigits (c :: cs)
      match r1 with
      | '.' :: r2 =>
        let (ds2, r3) := takeDigits r2
        if ds1.isEmpty && ds2.isEmpty then none
        else (Token.num ds1 ds2 :: ·) <$> lexTokens f r3
      | _ =>
        if ds1.isEmpty then none
        else (Token.num ds1 [] :: ·) <$> lexTokens f r1

mutual

/-- `AdditiveExpression`: a multiplicative expression followed by
`(('+'|'-') multiplicative)*`, evaluated left to right. -/
def parseAdditive : ℕ → List Token → Option (JSNum × List Token)
  | 0, _ => none
  | f + 1, ts => do
    let (v, r) ← parseMultiplicative f ts
    parseAdditiveRest f v r

/-- Left-associated fold of the `+`/`-` tail. -/
def parseAdditiveRest : ℕ → JSNum → List Token → Option (JSNum × List Token)
  | 0, _, _ => none
  | f + 1, acc, Token.plus :: r => do
    let (v, r') ← parseMultiplicative f r
    parseAdditiveRest f (acc.add v) r'
  | f + 1, acc, Token.minus :: r => do
    let (v, r') ← parseMultiplicative f r
    parseAdditiveRest f (acc.sub v) r'
  | _ + 1, acc, ts => some (acc, ts)

/-- `MultiplicativeExpression`: a unary expression followed by
`(('*'|'/') unary)*`, evaluated left to right. -/
def parseMultiplicative : ℕ → List Token → Option (JSNum × List Token)
  | 0, _ => none
  | f + 1, ts => do
    let (v, r) ← parseUnary f ts
    parseMultiplicativeRest f v r

/-- Left-associated fold of the `*`/`/` tail. -/
def parseMultiplicativeRest : ℕ → JSNum → List Token → Option (JSNum × List Token)
  | 0, _, _ => none
  | f + 1, acc, Token.star :: r => do
    let (v, r') ← parseUnary f r
    parseMultiplicativeRest f (acc.mul v) r'
  | f + 1, acc, Token.slash :: r => do
    let (v, r') ← parseUnary f r
    parseMultiplicativeRest f (acc.div v) r'
  | _ + 1, acc, ts => some (acc, ts)

/-- `UnaryExpression`: chains of unary `+` (identity on numbers) and unary
`-` (IEEE negation) in front of a primary expression. -/
def parseUnary : ℕ → List Token → Option (JSNum × List Token)
  | 0, _ => none
  | f + 1, Token.plus :: r => parseUnary f r
  | f + 1, Token.minus :: r => do
    let (v, r') ← parseUnary f r
    some (v.neg, r')
  | f + 1, ts => parsePrimary f ts

/-- `PrimaryExpression`: a numeric literal or a parenthesised expression. -/
def parsePrimary : ℕ → List Token → Option (JSNum × List Token)
  | 0, _ => none
  | _ + 1, Token.num ds1 ds2 :: r => some (JSNum.fin (numValue ds1 ds2), r)
  | f + 1, Token.lparen :: r => do
    let (v, r') ← parseAdditive f r
    match r' with
    | Token.rparen :: r'' => some (v, r'')
    | _ => none
  | _ + 1, _ => none

end

/-- Evaluate a token list as one complete expression; all tokens must be
consumed (a leftover suffix such as a call-like juxtaposition is a failure,
matching the SyntaxError/TypeError the source's `Function` evaluation hits). -/
def evalTokens (ts : List Token) : Option JSNum :=
  match parseAdditive (8 * ts.length + 8) ts with
  | some (v, []) => some v
  | _ => none

/-- Character set kept by `parseExpression`'s cleaning step.  The source first
strips commas and whitespace and then strips everything outside
`[0-9 + - * / ( ) .]`; the composition keeps exactly this set. -/
def isExprChar (c : Char) : Bool :=
  c.isDigit || c = '+' || c = '-' || c = '*' || c = '/' || c = '(' || c = ')' || c = '.'

/-- The cleaning step of `parseExpression`. -/
def cleanExpression (s : String) : List Char :=
  s.data.filter isExprChar

/-- Character set of `isValidExpression`'s `validPattern` regular expression
`[\d+\-*/().\s]`. -/
def validChar (c : Char) : Bool :=
  c.isDigit || c = '+' || c = '-' || c = '*' || c = '/' || c = '(' || c = ')' || c = '.' ||
    c.isWhitespace

/-- The running parenthesis counter of `isValidExpression`: it must never go
negative and must end at zero. -/
def parenCheck : List Char → ℤ → Bool
  | [], k => k == 0
  | c :: r, k =>
    let k' := if c = '(' then k + 1 else if c = ')' then k - 1 else k
    if k' < 0 then false else parenCheck r k'

/-- `CalculationEngine.isValidExpression`: the cleaned text must be a nonempty
word over the allowed character set and have balanced parentheses. -/
def isValidExpression (e : List Char) : Bool :=
  (!e.isEmpty && e.all validChar) && parenCheck e 0

/-- `CalculationEngine.evaluateExpression`: evaluate the cleaned text with the
host's expression grammar; a lexing or parsing failure (the `Function`
constructor's SyntaxError, or a runtime TypeError) and a non-finite result are
reported as errors, which `parseExpression` catches. -/
def evaluateExpression (e : List Char) : Except String ℚ :=
  match lexTokens (e.length + 1) e with
  | none => .error "Expression evaluation failed"
  | some ts =>
    match evalTokens ts with
    | none => .error "Expression evaluation failed"
    | some v => if v.isFinite then .ok v.toQ else .error "Expression evaluation failed"

/-- `CalculationEngine.roundNumber` at the engine's settings, which no code
path ever changes: rounding method `round` and precision 2, i.e.
`Math.round(q * 100) / 100` with JavaScript's round-half-towards-+∞. -/
def roundNumber (q : ℚ) : ℚ :=
  (⌊q * 100 + 1 / 2⌋ : ℚ) / 100

/-- `CalculationEngine.parseExpression`.  A null input and the (falsy) number
0 return 0 immediately; a nonzero numeric input has no `.trim` method, and the
resulting TypeError is caught by the surrounding `try`, also giving 0.  For a
string: blank input returns 0, then the text is cleaned, validated and
evaluated, every failure being caught and turned into 0, and a successful
value is rounded. -/
def parseExpression : ExprInput → ℚ
  | .null => 0
  | .num _ => 0
  | .str s =>
    if s.data.all Char.isWhitespace then 0
    else
      let cleaned := cleanExpression s
      if cleaned.isEmpty then 0
      else if !isValidExpression cleaned then 0
      else
        match evaluateExpression cleaned with
        | .ok v => roundNumber v
        | .error _ => 0

/-- Helper: a literal with no fraction digits is worth its integer digits. -/
lemma numValue_int (ds : List Char) : numValue ds [] = (digitsToNat ds : ℚ) := by
  have h0 : digitsToNat [] = 0 := by decide
  simp [numValue, h0]

/-- Bank-account details carried (but never computed on) by the engine. -/
structure BankInfo where
  accountNumber : String
  bankName : String
  accountHolder : String
deriving DecidableEq

/-- An item: the price is stored as raw text (or a number, for synthesized tip
items) and evaluated only at computation time. -/
structure Item where
  name : String
  price : ExprInput
deriving DecidableEq

/-- A session member.  A missing `items` field is normalized to `[]` by the
source (`member.items || []`, `if (!member.items) member.items = []`), so it
is modelled as a plain list. -/
structure Member where
  id : String
  name : String
  items : List Item
  advance : ExprInput
  bankInfo : Option BankInfo
deriving DecidableEq

/-- A session as the engine reads it: only `session.members` is consumed
(location, date and settings are presentation fields).  `members` is an
`Option` to model the `!session.members` guards. -/
structure Session where
  members : Option (List Member)
deriving DecidableEq

/-- Member status after settlement. -/
inductive Status where
  | needs_to_pay
  | gets_refund
  | even
deriving DecidableEq

/-- Per-member cost record built by `calculateMemberCosts`. -/
structure MemberCost where
  id : String
  name : String
  items : List Item
  advance : ℚ
  bankInfo : Option BankInfo
  totalSpent : ℚ
  itemCount : ℕ
deriving DecidableEq

/-- Per-member settlement record: `calculateFinalAmounts` spreads the cost
record and adds the equal-split share, final amount and status. -/
structure MemberCalc extends MemberCost where
  amountPerPerson : ℚ
  finalAmount : ℚ
  status : Status
deriving DecidableEq

/-- `CalculationEngine.calculateMemberCosts`.  The `|| 0` after each
`parseExpression` call is the identity, since `parseExpression` already
returns 0 on every failure. -/
def calculateMemberCosts (members : List Member) : List MemberCost :=
  members.map fun m =>
    { id := m.id
      name := m.name
      items := m.items
      advance := parseExpression m.advance
      bankInfo := m.bankInfo
      totalSpent := roundNumber ((m.items.map fun it => parseExpression it.price).sum)
      itemCount := m.items.length }

/-- The session totals record. -/
structure Totals where
  totalCost : ℚ
  totalAdvance : ℚ
  memberCount : ℕ
  totalItems : ℕ
  averageSpent : ℚ
  costPerPerson : ℚ
  remainingBalance : ℚ
deriving DecidableEq

/-- `CalculationEngine.calculateSessionTotals`.  The final `Object.keys`
loop applies `roundNumber` to every numeric field; on the integer fields
`memberCount` and `totalItems` it is the identity, so they are kept as `ℕ`. -/
def calculateSessionTotals (mcs : List MemberCost) : Totals :=
  let totalCost := (mcs.map (·.totalSpent)).sum
  let totalAdvance := (mcs.map (·.advance)).sum
  let memberCount := mcs.length
  let costPerPerson := if 0 < memberCount then totalCost / (memberCount : ℚ) else 0
  { totalCost := roundNumber totalCost
    totalAdvance := roundNumber totalAdvance
    memberCount := memberCount
    totalItems := (mcs.map (·.itemCount)).sum
    averageSpent := roundNumber costPerPerson
    costPerPerson := roundNumber costPerPerson
    remainingBalance := roundNumber (totalCost - totalAdvance) }

/-- `CalculationEngine.calculateFinalAmounts`: equal-split share minus
advance, with the 0.01 dead-band mapping to `even`. -/
def calculateFinalAmounts (mcs : List MemberCost) (totals : Totals) : List MemberCalc :=
  mcs.map fun m =>
    let amountPerPerson := totals.costPerPerson
    let finalAmount := amountPerPerson - m.advance
    if |finalAmount| < 1 / 100 then
      { toMemberCost := m, amountPerPerson := roundNumber amountPerPerson,
        finalAmount := roundNumber 0, status := .even }
    else if 0 < finalAmount then
      { toMemberCost := m, amountPerPerson := roundNumber amountPerPerson,
        finalAmount := roundNumber finalAmount, status := .needs_to_pay }
    else
      { toMemberCost := m, amountPerPerson := roundNumber amountPerPerson,
        finalAmount := roundNumber |finalAmount|, status := .gets_refund }

/-- A `{name, amount}` pair, used by the summary lists and by the working
arrays of the payment-suggestion loop. -/
structure Entry where
  name : String
  amount : ℚ
deriving DecidableEq

/-- The summary block of a settlement result. -/
structure Summary where
  needToPay : List Entry
  getRefund : List Entry
  even : List Entry
  totalNeedToPay : ℚ
  totalRefund : ℚ
  balanceCheck : ℚ
deriving DecidableEq

/-- `CalculationEngine.generateSummary`.  (The source also receives `totals`
but never reads it.)  The single `forEach` pushing by status is rendered as
one filtered pass per status, which preserves order and totals. -/
def generateSummary (mcs : List MemberCalc) : Summary :=
  let pays := (mcs.filter (·.status == Status.needs_to_pay)).map fun m => Entry.mk m.name m.finalAmount
  let refunds := (mcs.filter (·.status == Status.gets_refund)).map fun m => Entry.mk m.name m.finalAmount
  let evens := (mcs.filter (·.status == Status.even)).map fun m => Entry.mk m.name 0
  let totalNeedToPay := roundNumber ((pays.map (·.amount)).sum)
  let totalRefund := roundNumber ((refunds.map (·.amount)).sum)
  { needToPay := pays
    getRefund := refunds
    even := evens
    totalNeedToPay := totalNeedToPay
    totalRefund := totalRefund
    balanceCheck := roundNumber (totalNeedToPay - totalRefund) }

/-- `CalculationEngine.validateCalculations`: the advisory balance check.
Its boolean result is ignored by `calculateSession` (it only logs). -/
def validateCalculations (mcs : List MemberCalc) (totals : Totals) : Bool :=
  let totalAdvances := (mcs.map (·.advance)).sum
  let totalNeedToPay := ((mcs.filter (·.status == Status.needs_to_pay)).map (·.finalAmount)).sum
  decide (|totalAdvances + totalNeedToPay - totals.totalCost| ≤ 1 / 100)

/-- A full settlement result. -/
structure SettleResult where
  memberCalculations : List MemberCalc
  totals : Totals
  summary : Summary
deriving DecidableEq

/-- `CalculationEngine.calculateSession`.  A null session, absent member
array or empty member list short-circuits to the empty result.  The body is
pure, so the surrounding try/catch can never fire; the advisory
`validateCalculations` pass only logs and its result is dropped. -/
def calculateSession (session : Option Session) : SettleResult :=
  match session with
  | some { members := some (m :: ms) } =>
    let mcs := calculateMemberCosts (m :: ms)
    let totals := calculateSessionTotals mcs
    let finalCalculations := calculateFinalAmounts mcs totals
    { memberCalculations := finalCalculations
      totals := totals
      summary := generateSummary finalCalculations }
  | _ =>
    { memberCalculations := []
      totals := calculateSessionTotals []
      summary := generateSummary [] }

/-- A transfer suggestion; `fromName`/`toName` are the source's `from`/`to`
fields (renamed because `from` is reserved).  The `formattedAmount` display
string (locale formatting of the same number) is presentation-only and
omitted. -/
structure Suggestion where
  fromName : String
  toName : String
  amount : ℚ
deriving DecidableEq

/-- Final state of the suggestion loop: the emitted suggestions, the two
working arrays with their decremented amounts as they stand when the `while`
loop exits, and the number of executed iterations. -/
structure LoopState where
  suggestions : List Suggestion
  finalPayers : List Entry
  finalReceivers : List Entry
  iterations : ℕ
deriving DecidableEq

/-- The two-pointer `while` loop of `generatePaymentSuggestions`, with
pointer advancement rendered as dropping the list head.  Since the transfer
is `min` of the two head amounts, at least one decremented head is 0 each
iteration; in particular in the branch where the payer's remainder stays
above 0.01, the receiver's remainder is exactly 0, so the source's
`receiver.amount <= 0.01` check necessarily advances the receiver pointer
there. -/
def settleLoop : List Entry → List Entry → LoopState
  | [], rs => ⟨[], [], rs, 0⟩
  | p :: ps, [] => ⟨[], p :: ps, [], 0⟩
  | p :: ps, r :: rs =>
    if p.amount - min p.amount r.amount ≤ 1 / 100 then
      if r.amount - min p.amount r.amount ≤ 1 / 100 then
        ⟨(if 1 / 100 < min p.amount r.amount then
            [Suggestion.mk p.name r.name (roundNumber (min p.amount r.amount))] else []) ++
            (settleLoop ps rs).suggestions,
          ⟨p.name, p.amount - min p.amount r.amount⟩ :: (settleLoop ps rs).finalPayers,
          ⟨r.name, r.amount - min p.amount r.amount⟩ :: (settleLoop ps rs).finalReceivers,
          (settleLoop ps rs).iterations + 1⟩
      else
        ⟨(if 1 / 100 < min p.amount r.amount then
            [Suggestion.mk p.name r.name (roundNumber (min p.amount r.amount))] else []) ++
            (settleLoop ps (⟨r.name, r.amount - min p.amount r.amount⟩ :: rs)).suggestions,
          ⟨p.name, p.amount - min p.amount r.amount⟩ ::
            (settleLoop ps (⟨r.name, r.amount - min p.amount r.amount⟩ :: rs)).finalPayers,
          (settleLoop ps (⟨r.name, r.amount - min p.amount r.amount⟩ :: rs)).finalReceivers,
          (settleLoop ps (⟨r.name, r.amount - min p.amount r.amount⟩ :: rs)).iterations + 1⟩
    else
      ⟨(if 1 / 100 < min p.amount r.amount then
          [Suggestion.mk p.name r.name (roundNumber (min p.amount r.amount))] else []) ++
          (settleLoop (⟨p.name, p.amount - min p.amount r.amount⟩ :: ps) rs).suggestions,
        (settleLoop (⟨p.name, p.amount - min p.amount r.amount⟩ :: ps) rs).finalPayers,
        ⟨r.name, r.amount - min p.amount r.amount⟩ ::
          (settleLoop (⟨p.name, p.amount - min p.amount r.amount⟩ :: ps) rs).finalReceivers,
        (settleLoop (⟨p.name, p.amount - min p.amount r.amount⟩ :: ps) rs).iterations + 1⟩
termination_by ps rs => ps.length + rs.length
decreasing_by all_goals simp_arith

/-- Stable descending insertion by amount: an element goes in front of the
first entry whose amount does not exceed it. -/
def insertDesc (x : Entry) : List Entry → List Entry
  | [] => [x]
  | y :: ys => if y.amount ≤ x.amount then x :: y :: ys else y :: insertDesc x ys

/-- The result of JavaScript's stable `sort((a, b) => b.amount - a.amount)`:
descending by amount, ties keeping insertion order. -/
def sortDesc : List Entry → List Entry
  | [] => []
  | x :: xs => insertDesc x (sortDesc xs)

/-- `CalculationEngine.generatePaymentSuggestions`.  The body is pure, so the
surrounding try/catch (which would return `[]`) can never fire. -/
def generatePaymentSuggestions (calculations : SettleResult) : List Suggestion :=
  let needToPay := sortDesc
    ((calculations.memberCalculations.filter (·.status == Status.needs_to_pay)).map fun m =>
      Entry.mk m.name m.finalAmount)
  let getRefund := sortDesc
    ((calculations.memberCalculations.filter (·.status == Status.gets_refund)).map fun m =>
      Entry.mk m.name m.finalAmount)
  (settleLoop needToPay getRefund).suggestions

/-- The per-member body of `calculateCustomSplit`'s map: look up the member's
percentage (a missing id reads as undefined, so `percentages[member.id] || 0`
becomes `getD 0`), allocate that share of the total cost, and derive the
final amount and status exactly as in the equal-split path. -/
def customCalc (ps : List (String × ℚ)) (totals : Totals) (m : MemberCost) : MemberCalc :=
  let percentage := (ps.lookup m.id).getD 0
  let amountPerPerson := totals.totalCost * percentage / 100
  let finalAmount := amountPerPerson - m.advance
  if |finalAmount| < 1 / 100 then
    { toMemberCost := m, amountPerPerson := roundNumber amountPerPerson,
      finalAmount := roundNumber 0, status := Status.even }
  else if 0 < finalAmount then
    { toMemberCost := m, amountPerPerson := roundNumber amountPerPerson,
      finalAmount := roundNumber finalAmount, status := Status.needs_to_pay }
  else
    { toMemberCost := m, amountPerPerson := roundNumber amountPerPerson,
      finalAmount := roundNumber |finalAmount|, status := Status.gets_refund }

/-- `CalculationEngine.calculateCustomSplit`.  Percentages arrive as a
member-id-keyed object, modelled as an association list; `Object.values`
sums the stored values. -/
def calculateCustomSplit (session : Option Session) (percentages : Option (List (String × ℚ))) :
    Except String SettleResult :=
  match session with
  | none => .error "Invalid parameters for custom split"
  | some s =>
    match s.members with
    | none => .error "Invalid parameters for custom split"
    | some ms =>
      match percentages with
      | none => .error "Invalid parameters for custom split"
      | some ps =>
        let totalPercentage := (ps.map (·.2)).sum
        if 1 / 100 < |totalPercentage - 100| then .error "Percentages must sum to 100%"
        else
          let mcs := calculateMemberCosts ms
          let totals := calculateSessionTotals mcs
          let customCalculations := mcs.map (customCalc ps totals)
          .ok { memberCalculations := customCalculations
                totals := totals
                summary := generateSummary customCalculations }

/-- Field-by-field rebuild of an item, as performed by
`JSON.parse(JSON.stringify(session))`. -/
def cloneItem (it : Item) : Item :=
  ⟨it.name, it.price⟩

/-- Field-by-field rebuild of bank details under the JSON round trip. -/
def cloneBankInfo (b : BankInfo) : BankInfo :=
  ⟨b.accountNumber, b.bankName, b.accountHolder⟩

/-- Field-by-field rebuild of a member under the JSON round trip. -/
def cloneMember (m : Member) : Member :=
  ⟨m.id, m.name, m.items.map cloneItem, m.advance, m.bankInfo.map cloneBankInfo⟩

/-- Field-by-field rebuild of a session under the JSON round trip. -/
def cloneSession (s : Session) : Session :=
  ⟨s.members.map (·.map cloneMember)⟩

/-- `CalculationEngine.calculateWithTip`, in state-passing form: the second
component is the value held by the caller's `session` binding when the call
returns.  Every push of a synthesized tip item targets the freshly built
clone (`cloneMember`/`cloneSession` images), never the caller's session, so
each branch returns `session` itself as the final state.  A null session or
absent member array with a positive tip hits a TypeError (`.members` of
null, `forEach`/`for‑of` of undefined) that the catch block rethrows. -/
def calculateWithTip (session : Option Session) (tipAmount : ExprInput)
    (tipDistribution : String) : Except String SettleResult × Option Session :=
  let tipValue := parseExpression tipAmount
  if tipValue ≤ 0 then (Except.ok (calculateSession session), session)
  else
    match session with
    | none => (Except.error "Tip calculation failed", none)
    | some s =>
      if tipDistribution = "equal" then
        match s.members with
        | none => (Except.error "Tip calculation failed", some s)
        | some ms =>
          let cms := ms.map cloneMember
          let tipPerPerson := tipValue / (cms.length : ℚ)
          let cms' := cms.map fun m =>
            { m with items := m.items ++ [Item.mk "Tip (Equal Split)" (ExprInput.num tipPerPerson)] }
          (Except.ok (calculateSession (some ⟨some cms'⟩)), some s)
      else if tipDistribution = "proportional" then
        match s.members with
        | none => (Except.error "Tip calculation failed", some s)
        | some ms =>
          let memberCalculations := calculateMemberCosts ms
          let totalSpent : ℚ := (memberCalculations.map (·.totalSpent)).sum
          if 0 < totalSpent then
            let cms := ms.map cloneMember
            let cms' := (cms.zip memberCalculations).map fun mc =>
              { mc.1 with items := mc.1.items ++
                  [Item.mk "Tip (Proportional)"
                    (ExprInput.num ((mc.2.totalSpent / totalSpent) * tipValue))] }
            (Except.ok (calculateSession (some ⟨some cms'⟩)), some s)
          else (Except.ok (calculateSession (some (cloneSession s))), some s)
      else (Except.ok (calculateSession (some (cloneSession s))), some s)

/-- A stored session as the analytics module reads it in the cost pipeline:
only `totals.totalCost` is consumed, through the guard `s.totals?.totalCost
|| 0`. -/
structure AnalSession where
  totals : Option Totals
deriving DecidableEq

/-- One histogram bucket.  `lo`/`hi` are the numeric `bucketMin`/`bucketMax`
endpoints; the source's `range` field is just their locale-formatted display
string. -/
structure CostBucket where
  lo : ℚ
  hi : ℚ
  count : ℕ
  percentage : ℚ
deriving DecidableEq

/-- `AnalyticsManager.generateCostDistribution`: at most 10 equal-width
buckets over `[min, max]`, each counting the costs in the half-open range
`[bucketMin, bucketMax)`. -/
def generateCostDistribution (costs : List ℚ) : List CostBucket :=
  match costs with
  | [] => []
  | c :: cs =>
    let minC := cs.foldl min c
    let maxC := cs.foldl max c
    let buckets := min 10 (c :: cs).length
    let bucketSize := (maxC - minC) / (buckets : ℚ)
    (List.range buckets).map fun (i : ℕ) =>
      let bucketMin := minC + (i : ℚ) * bucketSize
      let bucketMax := minC + ((i : ℚ) + 1) * bucketSize
      { lo := bucketMin
        hi := bucketMax
        count := (c :: cs).countP fun cost => decide (bucketMin ≤ cost ∧ cost < bucketMax)
        percentage := (((c :: cs).countP fun cost =>
            decide (bucketMin ≤ cost ∧ cost < bucketMax) : ℚ)) / ((c :: cs).length : ℚ) * 100 }

/-- The cost-analytics record; `minCost`/`maxCost` are the source's
`min`/`max` fields. -/
structure CostAnalytics where
  total : ℚ
  average : ℚ
  median : ℚ
  minCost : ℚ
  maxCost : ℚ
  distribution : List CostBucket
deriving DecidableEq

/-- Stable ascending insertion. -/
def insertAsc (x : ℚ) : List ℚ → List ℚ
  | [] => [x]
  | y :: ys => if x ≤ y then x :: y :: ys else y :: insertAsc x ys

/-- The result of JavaScript's stable `sort((a, b) => a - b)`. -/
def sortAsc : List ℚ → List ℚ
  | [] => []
  | x :: xs => insertAsc x (sortAsc xs)

/-- The positive session costs collected by `generateCostAnalytics`. -/
def positiveSessionCosts (sessions : List AnalSession) : List ℚ :=
  (sessions.map fun s => (s.totals.map (·.totalCost)).getD 0).filter (fun c => decide (0 < c))

/-- `AnalyticsManager.generateCostAnalytics`: collect positive costs, sort
ascending in place, then take total/average/median/min/max and the
distribution of the sorted array. -/
def generateCostAnalytics (sessions : List AnalSession) : CostAnalytics :=
  let costs := positiveSessionCosts sessions
  if costs.isEmpty then ⟨0, 0, 0, 0, 0, []⟩
  else
    let sorted := sortAsc costs
    { total := sorted.sum
      average := sorted.sum / (sorted.length : ℚ)
      median := sorted.getD (sorted.length / 2) 0
      minCost := sorted.getD 0 0
      maxCost := sorted.getD (sorted.length - 1) 0
      distribution := generateCostDistribution sorted }

/-- A rational that is a whole number of cents (the engine rounds every money
amount to 2 decimal places). -/
def IsCent (q : ℚ) : Prop :=
  ∃ n : ℤ, q = (n : ℚ) / 100

lemma isCent_roundNumber (q : ℚ) : IsCent (roundNumber q) :=
  ⟨⌊q * 100 + 1 / 2⌋, rfl⟩

lemma IsCent.roundNumber_eq {q : ℚ} (h : IsCent q) : roundNumber q = q := by
  obtain ⟨n, rfl⟩ := h
  have h100 : ((n : ℚ) / 100) * 100 = (n : ℚ) := by
    field_simp
  rw [roundNumber, h100]
  rw [show ((n : ℚ) + 1 / 2) = ((n : ℤ) : ℚ) + 1 / 2 from rfl, Int.floor_int_add]
  norm_num

lemma IsCent.zero : IsCent 0 :=
  ⟨0, by norm_num⟩

lemma IsCent.add {a b : ℚ} (ha : IsCent a) (hb : IsCent b) : IsCent (a + b) := by
  obtain ⟨m, rfl⟩ := ha
  obtain ⟨n, rfl⟩ := hb
  exact ⟨m + n, by push_cast; ring⟩

lemma IsCent.sub {a b : ℚ} (ha : IsCent a) (hb : IsCent b) : IsCent (a - b) := by
  obtain ⟨m, rfl⟩ := ha
  obtain ⟨n, rfl⟩ := hb
  exact ⟨m - n, by push_cast; ring⟩

lemma IsCent.min {a b : ℚ} (ha : IsCent a) (hb : IsCent b) : IsCent (min a b) := by
  rcases le_total a b with h | h
  · rwa [min_eq_left h]
  · rwa [min_eq_right h]

lemma IsCent.listSum {l : List ℚ} (h : ∀ x ∈ l, IsCent x) : IsCent l.sum := by
  induction l with
  | nil => simpa using IsCent.zero
  | cons a l ih =>
    rw [List.sum_cons]
    exact (h a (List.mem_cons_self a l)).add (ih fun x hx => h x (List.mem_cons_of_mem a hx))

lemma roundNumber_nonneg {q : ℚ} (h : 0 ≤ q) : 0 ≤ roundNumber q := by
  rw [roundNumber]
  have : (0 : ℤ) ≤ ⌊q * 100 + 1 / 2⌋ := by
    rw [Int.le_floor]
    push_cast
    nlinarith
  positivity

lemma abs_roundNumber_sub (q : ℚ) : |roundNumber q - q| ≤ 1 / 200 := by
  rw [roundNumber, abs_le]
  have h1 : (⌊q * 100 + 1 / 2⌋ : ℚ) ≤ q * 100 + 1 / 2 := Int.floor_le _
  have h2 : q * 100 + 1 / 2 - 1 < (⌊q * 100 + 1 / 2⌋ : ℚ) := Int.sub_one_lt_floor _
  constructor <;> nlinarith

lemma roundNumber_zero : roundNumber 0 = 0 :=
  IsCent.zero.roundNumber_eq

lemma cloneItem_id (it : Item) : cloneItem it = it := rfl

lemma cloneBankInfo_id (b : BankInfo) : cloneBankInfo b = b := rfl

lemma cloneMember_id (m : Member) : cloneMember m = m := by
  have hi : cloneItem = id := funext fun it => rfl
  have hb : cloneBankInfo = id := funext fun b => rfl
  cases m with
  | mk i n its adv bi =>
    simp [cloneMember, hi, hb]

lemma cloneSession_id (s : Session) : cloneSession s = s := by
  have hm : cloneMember = id := funext fun m => cloneMember_id m
  cases s with
  | mk mem => simp [cloneSession, hm]

/-- Claim C9: `calculateWithTip` leaves the passed-in session unchanged — tip
line-items are appended only to a cloned working copy (whose JSON round trip
rebuilds a structurally identical session), and the caller's session binding
holds the same members and items after the call as before. -/
theorem calculateWithTip_frame :
    (∀ (session : Option Session) (tipAmount : ExprInput) (tipDistribution : String),
      (calculateWithTip session tipAmount tipDistribution).2 = session) ∧
    (∀ s : Session, cloneSession s = s) := by
  constructor
  · intro session tipAmount tipDistribution
    unfold calculateWithTip
    repeat' split
    all_goals simp [apply_ite Prod.snd]
  · exact cloneSession_id

lemma parse_str_2x25000 : parseExpression (.str "2*25000") = 50000 := by
  have hw : ("2*25000".data.all Char.isWhitespace) = false := by decide
  have hc : cleanExpression "2*25000" = "2*25000".data := by decide
  have hv : isValidExpression "2*25000".data = true := by decide
  have hl : lexTokens ("2*25000".data.length + 1) "2*25000".data
      = some [Token.num ['2'] [], Token.star, Token.num ['2', '5', '0', '0', '0'] []] := by decide
  have h1 : digitsToNat ['2'] = 2 := by decide
  have h2 : digitsToNat ['2', '5', '0', '0', '0'] = 25000 := by decide
  simp only [parseExpression, hw, hc, evaluateExpression, hv, hl, Bool.false_eq_true, if_false,
    Bool.not_true, evalTokens]
  norm_num [parseAdditive, parseAdditiveRest, parseMultiplicative, parseMultiplicativeRest,
    parseUnary, parsePrimary, JSNum.mul, JSNum.isZero, JSNum.signPos, JSNum.toQ, JSNum.isFinite,
    numValue_int, h1, h2, roundNumber, bind, Option.bind]

lemma parse_str_60000 : parseExpression (.str "60000") = 60000 := by
  have hw : ("60000".data.all Char.isWhitespace) = false := by decide
  have hc : cleanExpression "60000" = "60000".data := by decide
  have hv : isValidExpression "60000".data = true := by decide
  have hl : lexTokens ("60000".data.length + 1) "60000".data
      = some [Token.num ['6', '0', '0', '0', '0'] []] := by decide
  have h1 : digitsToNat ['6', '0', '0', '0', '0'] = 60000 := by decide
  simp only [parseExpression, hw, hc, evaluateExpression, hv, hl, Bool.false_eq_true, if_false,
    Bool.not_true, evalTokens]
  norm_num [parseAdditive, parseAdditiveRest, parseMultiplicative, parseMultiplicativeRest,
    parseUnary, parsePrimary, JSNum.toQ, JSNum.isFinite, numValue_int, h1, roundNumber,
    bind, Option.bind]

lemma parse_str_50000 : parseExpression (.str "50000") = 50000 := by
  have hw : ("50000".data.all Char.isWhitespace) = false := by decide
  have hc : cleanExpression "50000" = "50000".data := by decide
  have hv : isValidExpression "50000".data = true := by decide
  have hl : lexTokens ("50000".data.length + 1) "50000".data
      = some [Token.num ['5', '0', '0', '0', '0'] []] := by decide
  have h1 : digitsToNat ['5', '0', '0', '0', '0'] = 50000 := by decide
  simp only [parseExpression, hw, hc, evaluateExpression, hv, hl, Bool.false_eq_true, if_false,
    Bool.not_true, evalTokens]
  norm_num [parseAdditive, parseAdditiveRest, parseMultiplicative, parseMultiplicativeRest,
    parseUnary, parsePrimary, JSNum.toQ, JSNum.isFinite, numValue_int, h1, roundNumber,
    bind, Option.bind]

lemma parse_str_one : parseExpression (.str "1") = 1 := by
  have hw : ("1".data.all Char.isWhitespace) = false := by decide
  have hc : cleanExpression "1" = "1".data := by decide
  have hv : isValidExpression "1".data = true := by decide
  have hl : lexTokens ("1".data.length + 1) "1".data = some [Token.num ['1'] []] := by decide
  have h1 : digitsToNat ['1'] = 1 := by decide
  simp only [parseExpression, hw, hc, evaluateExpression, hv, hl, Bool.false_eq_true, if_false,
    Bool.not_true, evalTokens]
  norm_num [parseAdditive, parseAdditiveRest, parseMultiplicative, parseMultiplicativeRest,
    parseUnary, parsePrimary, JSNum.toQ, JSNum.isFinite, numValue_int, h1, roundNumber,
    bind, Option.bind]

lemma parse_str_one_div_zero : parseExpression (.str "1/0") = 0 := by
  have hw : ("1/0".data.all Char.isWhitespace) = false := by decide
  have hc : cleanExpression "1/0" = "1/0".data := by decide
  have hv : isValidExpression "1/0".data = true := by decide
  have hl : lexTokens ("1/0".data.length + 1) "1/0".data
      = some [Token.num ['1'] [], Token.slash, Token.num ['0'] []] := by decide
  have h1 : digitsToNat ['1'] = 1 := by decide
  have h0 : digitsToNat ['0'] = 0 := by decide
  simp only [parseExpression, hw, hc, evaluateExpression, hv, hl, Bool.false_eq_true, if_false,
    Bool.not_true, evalTokens]
  norm_num [parseAdditive, parseAdditiveRest, parseMultiplicative, parseMultiplicativeRest,
    parseUnary, parsePrimary, JSNum.div, JSNum.isZero, JSNum.signPos, JSNum.toQ, JSNum.isFinite,
    numValue_int, h1, h0, roundNumber, bind, Option.bind]

lemma parse_num_eq_zero (q : ℚ) : parseExpression (.num q) = 0 := rfl

/-- Claim C3: expression evaluation never raises to the caller: every input
either yields 0 (null input, numeric input, blank text, failed validation or
evaluation) or is a string whose cleaned text validates and evaluates to a
finite value, which is returned rounded.  In particular the blank, unbalanced
and division-by-zero examples all return 0. -/
theorem parseExpression_never_raises :
    (∀ i : ExprInput, parseExpression i = 0 ∨
      ∃ s, i = ExprInput.str s ∧ isValidExpression (cleanExpression s) = true ∧
        ∃ q, evaluateExpression (cleanExpression s) = Except.ok q ∧
          parseExpression i = roundNumber q) ∧
    parseExpression ExprInput.null = 0 ∧
    parseExpression (ExprInput.str "") = 0 ∧
    parseExpression (ExprInput.str "   ") = 0 ∧
    parseExpression (ExprInput.str "(2+3") = 0 ∧
    parseExpression (ExprInput.str "1/0") = 0 := by
  refine ⟨?_, rfl, by decide, by decide, by decide, parse_str_one_div_zero⟩
  intro i
  match i with
  | .null => exact Or.inl rfl
  | .num q => exact Or.inl rfl
  | .str s =>
    by_cases hw : (s.data.all Char.isWhitespace) = true
    · exact Or.inl (by simp [parseExpression, hw])
    · by_cases he : (cleanExpression s).isEmpty = true
      · exact Or.inl (by simp [parseExpression, hw, he])
      · by_cases hv : isValidExpression (cleanExpression s) = true
        · cases hq : evaluateExpression (cleanExpression s) with
          | error e => exact Or.inl (by simp [parseExpression, hw, he, hv, hq])
          | ok q =>
            exact Or.inr ⟨s, rfl, hv, q, hq, by simp [parseExpression, hw, he, hv, hq]⟩
        · exact Or.inl (by simp [parseExpression, hw, he, hv])

/-- Concrete scenario A members: Alice with one item priced by the expression
text "2*25000" and advance 0 (the number, as the app initializes it); Bob
with no items and advance entered as the text "60000". -/
def scenarioAMembers : List Member :=
  [⟨"m1", "Alice", [⟨"Food", .str "2*25000"⟩], .num 0, none⟩,
   ⟨"m2", "Bob", [], .str "60000", none⟩]

/-- The scenario A session. -/
def scenarioASession : Session := ⟨some scenarioAMembers⟩

set_option maxHeartbeats 1000000 in
lemma scenarioA_mcs : calculateMemberCosts scenarioAMembers =
    [⟨"m1", "Alice", [⟨"Food", .str "2*25000"⟩], 0, none, 50000, 1⟩,
     ⟨"m2", "Bob", [], 60000, none, 0, 0⟩] := by
  simp [calculateMemberCosts, scenarioAMembers, parse_str_2x25000, parse_str_60000,
    parse_num_eq_zero]
  norm_num [roundNumber]

set_option maxHeartbeats 1000000 in
lemma scenarioA_totals : calculateSessionTotals (calculateMemberCosts scenarioAMembers) =
    ⟨50000, 60000, 2, 1, 25000, 25000, -10000⟩ := by
  rw [scenarioA_mcs]
  norm_num [calculateSessionTotals, roundNumber]

set_option maxHeartbeats 1000000 in
lemma scenarioA_final : calculateFinalAmounts (calculateMemberCosts scenarioAMembers)
      (calculateSessionTotals (calculateMemberCosts scenarioAMembers)) =
    [⟨⟨"m1", "Alice", [⟨"Food", .str "2*25000"⟩], 0, none, 50000, 1⟩, 25000, 25000,
        Status.needs_to_pay⟩,
     ⟨⟨"m2", "Bob", [], 60000, none, 0, 0⟩, 25000, 35000, Status.gets_refund⟩] := by
  rw [scenarioA_totals, scenarioA_mcs]
  norm_num [calculateFinalAmounts, roundNumber]

set_option maxHeartbeats 1000000 in
/-- Claim C1: on the concrete scenario A session, `calculateSession` yields
cost per person 25000, Alice owing 25000 with status `needs_to_pay`, Bob
getting 35000 back with status `gets_refund`, and
`generatePaymentSuggestions` yields exactly the single transfer
Alice → Bob of 25000. -/
theorem scenarioA_result :
    (calculateSession (some scenarioASession)).totals.costPerPerson = 25000 ∧
    ((calculateSession (some scenarioASession)).memberCalculations.map fun m =>
        (m.name, m.finalAmount, m.status)) =
      [("Alice", (25000 : ℚ), Status.needs_to_pay), ("Bob", (35000 : ℚ), Status.gets_refund)] ∧
    generatePaymentSuggestions (calculateSession (some scenarioASession)) =
      [⟨"Alice", "Bob", 25000⟩] := by
  have h : calculateSession (some scenarioASession) =
      { memberCalculations := calculateFinalAmounts (calculateMemberCosts scenarioAMembers)
          (calculateSessionTotals (calculateMemberCosts scenarioAMembers))
        totals := calculateSessionTotals (calculateMemberCosts scenarioAMembers)
        summary := generateSummary (calculateFinalAmounts (calculateMemberCosts scenarioAMembers)
          (calculateSessionTotals (calculateMemberCosts scenarioAMembers))) } := rfl
  refine ⟨?_, ?_, ?_⟩
  · rw [h, scenarioA_totals]
  · rw [h]
    dsimp only
    rw [scenarioA_final]
    norm_num
  · rw [h]
    unfold generatePaymentSuggestions
    dsimp only
    rw [scenarioA_final]
    norm_num [sortDesc, insertDesc, settleLoop, min_def, roundNumber]

/-- Claim C5: `calculateCustomSplit` raises a validation error (and returns
no result) whenever the session, its member array or the percentages map is
absent, or the supplied percentages do not sum to 100 within ±0.01. -/
theorem calculateCustomSplit_rejects :
    ∀ (session : Option Session) (percentages : Option (List (String × ℚ))),
      (session = none ∨ (∃ s, session = some s ∧ s.members = none) ∨ percentages = none ∨
        (∃ ps, percentages = some ps ∧ 1 / 100 < |(ps.map (·.2)).sum - 100|)) →
      ∃ msg, calculateCustomSplit session percentages = Except.error msg := by
  intro session percentages h
  match session with
  | none => exact ⟨_, rfl⟩
  | some ⟨none⟩ => exact ⟨_, rfl⟩
  | some ⟨some ms⟩ =>
    match percentages with
    | none => exact ⟨_, rfl⟩
    | some ps =>
      have hsum : 1 / 100 < |(ps.map (·.2)).sum - 100| := by
        rcases h with h | ⟨s, hs, hm⟩ | h | ⟨qs, hq, hbad⟩
        · exact absurd h (by simp)
        · rw [show s = ⟨some ms⟩ from by injection hs with h2; exact h2.symm] at hm
          exact absurd hm (by simp)
        · exact absurd h (by simp)
        · rwa [show qs = ps from by injection hq with h2; exact h2.symm] at hbad
      exact ⟨"Percentages must sum to 100%", by simp only [calculateCustomSplit, if_pos hsum]⟩

/-- Witness for claim C5: the percentages `{a: 60, b: 41}` sum to 101, and
the call on a two-member session is rejected with an error. -/
theorem calculateCustomSplit_rejects_witness :
    (1 / 100 < |(([("a", (60 : ℚ)), ("b", 41)].map (·.2)).sum - 100)|) ∧
    ∃ msg, calculateCustomSplit
        (some ⟨some [⟨"a", "A", [], .num 0, none⟩, ⟨"b", "B", [], .num 0, none⟩]⟩)
        (some [("a", 60), ("b", 41)]) = Except.error msg :=
  ⟨by norm_num,
    calculateCustomSplit_rejects _ _ (Or.inr (Or.inr (Or.inr ⟨_, rfl, by norm_num⟩)))⟩

/-- Claim C10: in `calculateCustomSplit`, a member whose id is absent from a
percentages map summing to 100 is silently allocated percentage 0: the call
succeeds, the member's `amountPerPerson` is 0 and its `finalAmount` is
derived from the advance alone. -/
theorem customSplit_missing_id_zero :
    ∀ (ms : List Member) (ps : List (String × ℚ)) (i : ℕ) (hi : i < ms.length),
      (ps.map (·.2)).sum = 100 →
      ps.lookup ms[i].id = none →
      ∃ r, calculateCustomSplit (some ⟨some ms⟩) (some ps) = Except.ok r ∧
        ∃ hr : i < r.memberCalculations.length,
          r.memberCalculations[i].amountPerPerson = 0 ∧
          r.memberCalculations[i].finalAmount =
            (if |parseExpression ms[i].advance| < 1 / 100 then 0
             else roundNumber |parseExpression ms[i].advance|) := by
  intro ms ps i hi hsum hlook
  have hok : calculateCustomSplit (some ⟨some ms⟩) (some ps) = Except.ok
      { memberCalculations := (calculateMemberCosts ms).map
          (customCalc ps (calculateSessionTotals (calculateMemberCosts ms)))
        totals := calculateSessionTotals (calculateMemberCosts ms)
        summary := generateSummary ((calculateMemberCosts ms).map
          (customCalc ps (calculateSessionTotals (calculateMemberCosts ms)))) } := by
    simp only [calculateCustomSplit, hsum]
    norm_num
  refine ⟨_, hok, ?_⟩
  have hlen : ((calculateMemberCosts ms).map
      (customCalc ps (calculateSessionTotals (calculateMemberCosts ms)))).length = ms.length := by
    simp [calculateMemberCosts]
  refine ⟨by simpa [hlen] using hi, ?_, ?_⟩
  · dsimp only
    simp only [calculateMemberCosts, List.getElem_map, customCalc]
    simp only [hlook, Option.getD_none, mul_zero, zero_div, zero_sub, abs_neg]
    by_cases heven : |parseExpression ms[i].advance| < 1 / 100
    · rw [if_pos heven]
      exact roundNumber_zero
    · rw [if_neg heven]
      by_cases hpos : 0 < -parseExpression ms[i].advance
      · rw [if_pos hpos]
        exact roundNumber_zero
      · rw [if_neg hpos]
        exact roundNumber_zero
  · dsimp only
    simp only [calculateMemberCosts, List.getElem_map, customCalc]
    simp only [hlook, Option.getD_none, mul_zero, zero_div, zero_sub, abs_neg]
    by_cases heven : |parseExpression ms[i].advance| < 1 / 100
    · rw [if_pos heven, if_pos heven]
      exact roundNumber_zero
    · rw [if_neg heven, if_neg heven]
      by_cases hpos : 0 < -parseExpression ms[i].advance
      · rw [if_pos hpos]
        show roundNumber (-parseExpression ms[i].advance) =
          roundNumber |parseExpression ms[i].advance|
        rw [abs_of_neg (by linarith : parseExpression ms[i].advance < 0)]
      · rw [if_neg hpos]

/-- Witness for claim C10: one member with id `a` and a percentages map
`{x: 100}` whose values sum to 100 but do not mention `a`; the split
succeeds with `amountPerPerson = 0` for that member. -/
theorem customSplit_missing_id_zero_witness :
    ((([("x", (100 : ℚ))] : List (String × ℚ)).map (·.2)).sum = 100) ∧
    (([("x", (100 : ℚ))] : List (String × ℚ)).lookup "a" = none) ∧
    ∃ r, calculateCustomSplit (some ⟨some [⟨"a", "A", [], .num 0, none⟩]⟩)
        (some [("x", 100)]) = Except.ok r ∧
      ∃ hr : 0 < r.memberCalculations.length,
        r.memberCalculations[0].amountPerPerson = 0 ∧
        r.memberCalculations[0].finalAmount =
          (if |parseExpression (([⟨"a", "A", [], .num 0, none⟩] : List Member)[0]).advance| < 1 / 100
           then 0
           else roundNumber
             |parseExpression (([⟨"a", "A", [], .num 0, none⟩] : List Member)[0]).advance|) :=
  ⟨by norm_num, by decide,
    customSplit_missing_id_zero [⟨"a", "A", [], .num 0, none⟩] [("x", 100)] 0 (by decide)
      (by norm_num) (by decide)⟩

lemma finalAmounts_totalSpent (mcs : List MemberCost) (totals : Totals) :
    (calculateFinalAmounts mcs totals).map (·.totalSpent) = mcs.map (·.totalSpent) := by
  simp only [calculateFinalAmounts, List.map_map]
  apply List.map_congr_left
  intro m hm
  simp only [Function.comp]
  split
  · rfl
  · split <;> rfl

lemma memberCosts_totalSpent_cent {ms : List Member} :
    ∀ x ∈ calculateMemberCosts ms, IsCent x.totalSpent := by
  intro x hx
  simp only [calculateMemberCosts, List.mem_map] at hx
  obtain ⟨m, _, rfl⟩ := hx
  exact isCent_roundNumber _

/-- Claim C2: for every session accepted by `calculateSession` (including the
null/empty fallbacks), the sum of `totalSpent` over the returned member
calculations equals `totals.totalCost` to within 0.01 (in fact exactly:
`totalCost` is the rounded sum of already-rounded per-member totals). -/
theorem totalSpent_sums_to_totalCost :
    ∀ session : Option Session,
      |((calculateSession session).memberCalculations.map (·.totalSpent)).sum -
        (calculateSession session).totals.totalCost| ≤ 1 / 100 := by
  intro session
  match session with
  | none => simp [calculateSession, calculateSessionTotals, roundNumber_zero]
  | some ⟨none⟩ => simp [calculateSession, calculateSessionTotals, roundNumber_zero]
  | some ⟨some []⟩ => simp [calculateSession, calculateSessionTotals, roundNumber_zero]
  | some ⟨some (m :: ms)⟩ =>
    have h : calculateSession (some ⟨some (m :: ms)⟩) =
        { memberCalculations := calculateFinalAmounts (calculateMemberCosts (m :: ms))
            (calculateSessionTotals (calculateMemberCosts (m :: ms)))
          totals := calculateSessionTotals (calculateMemberCosts (m :: ms))
          summary := generateSummary (calculateFinalAmounts (calculateMemberCosts (m :: ms))
            (calculateSessionTotals (calculateMemberCosts (m :: ms)))) } := rfl
    rw [h]
    dsimp only
    rw [finalAmounts_totalSpent]
    have hcent : IsCent ((calculateMemberCosts (m :: ms)).map (·.totalSpent)).sum := by
      apply IsCent.listSum
      intro x hx
      simp only [List.mem_map] at hx
      obtain ⟨y, hy, rfl⟩ := hx
      exact memberCosts_totalSpent_cent y hy
    have htc : (calculateSessionTotals (calculateMemberCosts (m :: ms))).totalCost =
        ((calculateMemberCosts (m :: ms)).map (·.totalSpent)).sum := by
      show roundNumber _ = _
      exact hcent.roundNumber_eq
    rw [htc]
    simp

lemma settleLoop_iterations_le (P R : List Entry) :
    (settleLoop P R).iterations ≤ P.length + R.length - 1 := by
  induction P, R using settleLoop.induct with
  | case1 rs => simp [settleLoop]
  | case2 p ps => simp [settleLoop]
  | case3 p ps r rs hp hr ih =>
    simp only [settleLoop, hp, hr, if_pos, List.length_cons]
    omega
  | case4 p ps r rs hp hr ih =>
    simp only [settleLoop, hp, hr, if_pos, if_neg, not_false_iff, List.length_cons]
    simp only [List.length_cons] at ih
    omega
  | case5 p ps r rs hp ih =>
    simp only [settleLoop, hp, if_neg, not_false_iff, List.length_cons]
    simp only [List.length_cons] at ih
    omega

lemma settleLoop_one_side_exhausted (P R : List Entry) :
    (∀ e ∈ (settleLoop P R).finalPayers, e.amount ≤ 1 / 100) ∨
    (∀ e ∈ (settleLoop P R).finalReceivers, e.amount ≤ 1 / 100) := by
  induction P, R using settleLoop.induct with
  | case1 rs => exact Or.inl (by simp [settleLoop])
  | case2 p ps => exact Or.inr (by simp [settleLoop])
  | case3 p ps r rs hp hr ih =>
    rcases ih with ih | ih
    · refine Or.inl fun e he => ?_
      simp only [settleLoop, hp, hr, if_pos, List.mem_cons] at he
      rcases he with rfl | he
      · exact hp
      · exact ih e he
    · refine Or.inr fun e he => ?_
      simp only [settleLoop, hp, hr, if_pos, List.mem_cons] at he
      rcases he with rfl | he
      · exact hr
      · exact ih e he
  | case4 p ps r rs hp hr ih =>
    rcases ih with ih | ih
    · refine Or.inl fun e he => ?_
      simp only [settleLoop, hp, hr, if_pos, if_neg, not_false_iff, List.mem_cons] at he
      rcases he with rfl | he
      · exact hp
      · exact ih e he
    · refine Or.inr fun e he => ?_
      simp only [settleLoop, hp, hr, if_pos, if_neg, not_false_iff] at he
      exact ih e he
  | case5 p ps r rs hp ih =>
    have hr : r.amount - min p.amount r.amount ≤ 1 / 100 := by
      rcases min_cases p.amount r.amount with ⟨hm, _⟩ | ⟨hm, _⟩
      · exact absurd (by rw [hm]; simp : p.amount - min p.amount r.amount ≤ 1 / 100) hp
      · rw [hm]
        simp
    rcases ih with ih | ih
    · refine Or.inl fun e he => ?_
      simp only [settleLoop, hp, if_neg, not_false_iff] at he
      exact ih e he
    · refine Or.inr fun e he => ?_
      simp only [settleLoop, hp, if_neg, not_false_iff, List.mem_cons] at he
      rcases he with rfl | he
      · exact hr
      · exact ih e he

lemma settleLoop_sum_le : ∀ P R : List Entry,
    (∀ e ∈ P, IsCent e.amount ∧ 0 ≤ e.amount) →
    (∀ e ∈ R, IsCent e.amount ∧ 0 ≤ e.amount) →
    ((settleLoop P R).suggestions.map (·.amount)).sum ≤ (P.map (·.amount)).sum ∧
    ((settleLoop P R).suggestions.map (·.amount)).sum ≤ (R.map (·.amount)).sum := by
  intro P R
  induction P, R using settleLoop.induct with
  | case1 rs =>
    intro hP hR
    constructor
    · simp [settleLoop]
    · simp only [settleLoop, List.map_nil, List.sum_nil]
      refine List.sum_nonneg ?_
      intro x hx
      simp only [List.mem_map] at hx
      obtain ⟨e, he, rfl⟩ := hx
      exact (hR e he).2
  | case2 p ps =>
    intro hP hR
    constructor
    · simp only [settleLoop, List.map_nil, List.sum_nil]
      refine List.sum_nonneg ?_
      intro x hx
      simp only [List.mem_map] at hx
      obtain ⟨e, he, rfl⟩ := hx
      exact (hP e he).2
    · simp [settleLoop]
  | case3 p ps r rs hp hr ih =>
    intro hP hR
    have hPc := hP p (List.mem_cons_self p ps)
    have hRc := hR r (List.mem_cons_self r rs)
    have ih' := ih (fun e he => hP e (List.mem_cons_of_mem p he))
      (fun e he => hR e (List.mem_cons_of_mem r he))
    have hcent : IsCent (min p.amount r.amount) := hPc.1.min hRc.1
    have hemit : ((if 1 / 100 < min p.amount r.amount then
        [Suggestion.mk p.name r.name (roundNumber (min p.amount r.amount))] else []).map
          (·.amount)).sum ≤ min p.amount r.amount := by
      split
      · simp [hcent.roundNumber_eq]
      · simpa using le_min hPc.2 hRc.2
    constructor
    · simp only [settleLoop, hp, hr, if_pos, List.map_append, List.sum_append, List.map_cons,
        List.sum_cons]
      have h1 := ih'.1
      have := min_le_left p.amount r.amount
      linarith
    · simp only [settleLoop, hp, hr, if_pos, List.map_append, List.sum_append, List.map_cons,
        List.sum_cons]
      have h2 := ih'.2
      have := min_le_right p.amount r.amount
      linarith
  | case4 p ps r rs hp hr ih =>
    intro hP hR
    have hPc := hP p (List.mem_cons_self p ps)
    have hRc := hR r (List.mem_cons_self r rs)
    have hcent : IsCent (min p.amount r.amount) := hPc.1.min hRc.1
    have ih' := ih (fun e he => hP e (List.mem_cons_of_mem p he)) (by
      intro e he
      simp only [List.mem_cons] at he
      rcases he with rfl | he
      · refine ⟨hRc.1.sub hcent, ?_⟩
        simp only [sub_nonneg]
        exact min_le_right _ _
      · exact hR e (List.mem_cons_of_mem r he))
    have hemit : ((if 1 / 100 < min p.amount r.amount then
        [Suggestion.mk p.name r.name (roundNumber (min p.amount r.amount))] else []).map
          (·.amount)).sum ≤ min p.amount r.amount := by
      split
      · simp [hcent.roundNumber_eq]
      · simpa using le_min hPc.2 hRc.2
    constructor
    · simp only [settleLoop, hp, hr, if_pos, if_neg, not_false_iff, List.map_append,
        List.sum_append, List.map_cons, List.sum_cons]
      have h1 := ih'.1
      have := min_le_left p.amount r.amount
      linarith
    · simp only [settleLoop, hp, hr, if_pos, if_neg, not_false_iff, List.map_append,
        List.sum_append, List.map_cons, List.sum_cons]
      have h2 := ih'.2
      simp only [List.map_cons, List.sum_cons] at h2
      linarith
  | case5 p ps r rs hp ih =>
    intro hP hR
    have hPc := hP p (List.mem_cons_self p ps)
    have hRc := hR r (List.mem_cons_self r rs)
    have hcent : IsCent (min p.amount r.amount) := hPc.1.min hRc.1
    have ih' := ih (by
      intro e he
      simp only [List.mem_cons] at he
      rcases he with rfl | he
      · refine ⟨hPc.1.sub hcent, ?_⟩
        simp only [sub_nonneg]
        exact min_le_left _ _
      · exact hP e (List.mem_cons_of_mem p he))
      (fun e he => hR e (List.mem_cons_of_mem r he))
    have hemit : ((if 1 / 100 < min p.amount r.amount then
        [Suggestion.mk p.name r.name (roundNumber (min p.amount r.amount))] else []).map
          (·.amount)).sum ≤ min p.amount r.amount := by
      split
      · simp [hcent.roundNumber_eq]
      · simpa using le_min hPc.2 hRc.2
    constructor
    · simp only [settleLoop, hp, if_neg, not_false_iff, List.map_append, List.sum_append,
        List.map_cons, List.sum_cons]
      have h1 := ih'.1
      simp only [List.map_cons, List.sum_cons] at h1
      linarith
    · simp only [settleLoop, hp, if_neg, not_false_iff, List.map_append, List.sum_append,
        List.map_cons, List.sum_cons]
      have h2 := ih'.2
      have := min_le_right p.amount r.amount
      linarith

lemma insertDesc_perm (x : Entry) (l : List Entry) : (insertDesc x l).Perm (x :: l) := by
  induction l with
  | nil => exact List.Perm.refl _
  | cons y ys ih =>
    rw [insertDesc]
    split
    · exact List.Perm.refl _
    · exact (List.Perm.cons y ih).trans (List.Perm.swap x y ys)

lemma sortDesc_perm (l : List Entry) : (sortDesc l).Perm l := by
  induction l with
  | nil => exact List.Perm.refl _
  | cons x xs ih =>
    exact (insertDesc_perm x (sortDesc xs)).trans (List.Perm.cons x ih)

lemma finalAmounts_cent_nonneg (mcs : List MemberCost) (totals : Totals) :
    ∀ x ∈ calculateFinalAmounts mcs totals, IsCent x.finalAmount ∧ 0 ≤ x.finalAmount := by
  intro x hx
  simp only [calculateFinalAmounts, List.mem_map] at hx
  obtain ⟨m, _, rfl⟩ := hx
  split
  · exact ⟨isCent_roundNumber _, roundNumber_nonneg le_rfl⟩
  · split
    · next h => exact ⟨isCent_roundNumber _, roundNumber_nonneg h.le⟩
    · exact ⟨isCent_roundNumber _, roundNumber_nonneg (abs_nonneg _)⟩

lemma session_calc_cent_nonneg (session : Option Session) :
    ∀ mc ∈ (calculateSession session).memberCalculations,
      IsCent mc.finalAmount ∧ 0 ≤ mc.finalAmount := by
  match session with
  | none => simp [calculateSession]
  | some ⟨none⟩ => simp [calculateSession]
  | some ⟨some []⟩ => simp [calculateSession]
  | some ⟨some (m :: ms)⟩ =>
    intro mc hmc
    exact finalAmounts_cent_nonneg _ _ mc hmc

/-- The sorted `needToPay` working array built by
`generatePaymentSuggestions`. -/
def payerEntries (calculations : SettleResult) : List Entry :=
  sortDesc ((calculations.memberCalculations.filter (·.status == Status.needs_to_pay)).map fun m =>
    Entry.mk m.name m.finalAmount)

/-- The sorted `getRefund` working array built by
`generatePaymentSuggestions`. -/
def receiverEntries (calculations : SettleResult) : List Entry :=
  sortDesc ((calculations.memberCalculations.filter (·.status == Status.gets_refund)).map fun m =>
    Entry.mk m.name m.finalAmount)

lemma generatePaymentSuggestions_eq (calculations : SettleResult) :
    generatePaymentSuggestions calculations =
      (settleLoop (payerEntries calculations) (receiverEntries calculations)).suggestions := rfl

lemma entries_cent_nonneg (session : Option Session) (st : Status) :
    ∀ e ∈ sortDesc (((calculateSession session).memberCalculations.filter
        (·.status == st)).map fun m => Entry.mk m.name m.finalAmount),
      IsCent e.amount ∧ 0 ≤ e.amount := by
  intro e he
  rw [(sortDesc_perm _).mem_iff] at he
  simp only [List.mem_map, List.mem_filter] at he
  obtain ⟨mc, ⟨hmc, _⟩, rfl⟩ := he
  exact session_calc_cent_nonneg session mc hmc

lemma entries_amount_sum (l : List MemberCalc) :
    ((sortDesc (l.map fun m => Entry.mk m.name m.finalAmount)).map (·.amount)).sum =
      (l.map (·.finalAmount)).sum := by
  rw [((sortDesc_perm _).map (·.amount)).sum_eq]
  rw [List.map_map]
  rfl

set_option maxHeartbeats 800000 in
/-- Claim C8: for every settlement result, the greedy two-pointer loop of
`generatePaymentSuggestions` terminates (it is a total function of the two
working arrays) and executes at most `|payers| + |receivers| - 1` iterations,
each iteration advancing at least one pointer. -/
theorem suggestion_loop_iteration_bound :
    ∀ session : Option Session,
      (settleLoop (payerEntries (calculateSession session))
          (receiverEntries (calculateSession session))).iterations ≤
        (payerEntries (calculateSession session)).length +
          (receiverEntries (calculateSession session)).length - 1 :=
  fun _ => settleLoop_iterations_le _ _

set_option maxHeartbeats 800000 in
/-- Claim C4 (amended): for every settlement result, the suggested transfer
amounts sum to at most the minimum of the total `needs_to_pay` and total
`gets_refund` amounts; and when the loop terminates, at least one side is
fully settled — every remaining balance on that side, after the loop's
decrements (which include skipped micro-transfers of at most 0.01), is at
most 0.01.  The other side keeps its surplus when the two totals differ. -/
theorem suggestions_sum_bounded_one_side_settled :
    ∀ session : Option Session,
      ((generatePaymentSuggestions (calculateSession session)).map (·.amount)).sum ≤
        min ((((calculateSession session).memberCalculations.filter
              (·.status == Status.needs_to_pay)).map (·.finalAmount)).sum)
          ((((calculateSession session).memberCalculations.filter
              (·.status == Status.gets_refund)).map (·.finalAmount)).sum) ∧
      ((∀ e ∈ (settleLoop (payerEntries (calculateSession session))
            (receiverEntries (calculateSession session))).finalPayers, e.amount ≤ 1 / 100) ∨
        (∀ e ∈ (settleLoop (payerEntries (calculateSession session))
            (receiverEntries (calculateSession session))).finalReceivers, e.amount ≤ 1 / 100)) := by
  intro session
  refine ⟨?_, settleLoop_one_side_exhausted _ _⟩
  have h := settleLoop_sum_le (payerEntries (calculateSession session))
    (receiverEntries (calculateSession session))
    (entries_cent_nonneg session Status.needs_to_pay)
    (entries_cent_nonneg session Status.gets_refund)
  rw [generatePaymentSuggestions_eq]
  refine le_min ?_ ?_
  · have := h.1
    rwa [payerEntries, entries_amount_sum] at this
  · have := h.2
    rwa [receiverEntries, entries_amount_sum] at this

/-- A session in which both members spent 50000 and nobody advanced anything:
everyone needs to pay and nobody gets a refund. -/
def twoPayersMembers : List Member :=
  [⟨"m1", "A", [⟨"x", .str "50000"⟩], .num 0, none⟩,
   ⟨"m2", "B", [⟨"y", .str "50000"⟩], .num 0, none⟩]

/-- The two-payers session. -/
def twoPayersSession : Session := ⟨some twoPayersMembers⟩

set_option maxHeartbeats 1000000 in
lemma twoPayers_mcs : calculateMemberCosts twoPayersMembers =
    [⟨"m1", "A", [⟨"x", .str "50000"⟩], 0, none, 50000, 1⟩,
     ⟨"m2", "B", [⟨"y", .str "50000"⟩], 0, none, 50000, 1⟩] := by
  simp [calculateMemberCosts, twoPayersMembers, parse_str_50000, parse_num_eq_zero]
  norm_num [roundNumber]

set_option maxHeartbeats 1000000 in
lemma twoPayers_totals : calculateSessionTotals (calculateMemberCosts twoPayersMembers) =
    ⟨100000, 0, 2, 2, 50000, 50000, 100000⟩ := by
  rw [twoPayers_mcs]
  norm_num [calculateSessionTotals, roundNumber]

set_option maxHeartbeats 1000000 in
lemma twoPayers_final : calculateFinalAmounts (calculateMemberCosts twoPayersMembers)
      (calculateSessionTotals (calculateMemberCosts twoPayersMembers)) =
    [⟨⟨"m1", "A", [⟨"x", .str "50000"⟩], 0, none, 50000, 1⟩, 50000, 50000,
        Status.needs_to_pay⟩,
     ⟨⟨"m2", "B", [⟨"y", .str "50000"⟩], 0, none, 50000, 1⟩, 50000, 50000,
        Status.needs_to_pay⟩] := by
  rw [twoPayers_totals, twoPayers_mcs]
  norm_num [calculateFinalAmounts, roundNumber]

set_option maxHeartbeats 1000000 in
/-- Counterexample to claim C4 as stated: on the two-payers session the
engine emits no suggestions at all, both members remain payers of 50000, and
a payer's balance after applying all (zero) suggested transfers is 50000,
far above 0.01. -/
theorem suggestions_leave_payer_unsettled :
    generatePaymentSuggestions (calculateSession (some twoPayersSession)) = [] ∧
    ((calculateSession (some twoPayersSession)).memberCalculations.map fun m =>
        (m.finalAmount, m.status)) =
      [((50000 : ℚ), Status.needs_to_pay), ((50000 : ℚ), Status.needs_to_pay)] ∧
    ¬ ((50000 : ℚ) -
        ((generatePaymentSuggestions (calculateSession (some twoPayersSession))).map
          (·.amount)).sum ≤ 1 / 100) := by
  have h : calculateSession (some twoPayersSession) =
      { memberCalculations := calculateFinalAmounts (calculateMemberCosts twoPayersMembers)
          (calculateSessionTotals (calculateMemberCosts twoPayersMembers))
        totals := calculateSessionTotals (calculateMemberCosts twoPayersMembers)
        summary := generateSummary (calculateFinalAmounts (calculateMemberCosts twoPayersMembers)
          (calculateSessionTotals (calculateMemberCosts twoPayersMembers))) } := rfl
  have hsug : generatePaymentSuggestions (calculateSession (some twoPayersSession)) = [] := by
    rw [h]
    unfold generatePaymentSuggestions
    dsimp only
    rw [twoPayers_final]
    norm_num [sortDesc, insertDesc, settleLoop]
  refine ⟨hsug, ?_, ?_⟩
  · rw [h]
    dsimp only
    rw [twoPayers_final]
    norm_num
  · rw [hsug]
    norm_num

lemma customCalc_amountPerPerson (ps : List (String × ℚ)) (totals : Totals) (m : MemberCost) :
    (customCalc ps totals m).amountPerPerson =
      roundNumber (totals.totalCost * ((ps.lookup m.id).getD 0) / 100) := by
  simp only [customCalc]
  split
  · rfl
  · split <;> rfl

lemma sum_map_roundNumber_close {α : Type} (l : List α) (f : α → ℚ) :
    |(l.map fun a => roundNumber (f a)).sum - (l.map f).sum| ≤ (l.length : ℚ) / 200 := by
  induction l with
  | nil => simp
  | cons a l ih =>
    simp only [List.map_cons, List.sum_cons, List.length_cons]
    have h1 := abs_roundNumber_sub (f a)
    have h2 : |roundNumber (f a) + (l.map fun a => roundNumber (f a)).sum -
        (f a + (l.map f).sum)| ≤ |roundNumber (f a) - f a| +
          |(l.map fun a => roundNumber (f a)).sum - (l.map f).sum| := by
      have := abs_add (roundNumber (f a) - f a)
        ((l.map fun a => roundNumber (f a)).sum - (l.map f).sum)
      calc |roundNumber (f a) + (l.map fun a => roundNumber (f a)).sum - (f a + (l.map f).sum)|
          = |(roundNumber (f a) - f a) +
              ((l.map fun a => roundNumber (f a)).sum - (l.map f).sum)| := by ring_nf
        _ ≤ _ := this
    push_cast
    linarith

set_option maxHeartbeats 800000 in
/-- Claim C6 (amended): when the supplied percentages sum to exactly 100 and
the members' looked-up percentages also sum to 100 (the map's keys cover the
member ids), the custom split succeeds and the sum of `amountPerPerson` over
the returned member calculations equals `totals.totalCost` to within half a
cent per member (`memberCount / 200`); a flat 0.01 bound holds only for at
most two members, since each member's share is rounded half-up to cents. -/
theorem customSplit_sum_close :
    ∀ (ms : List Member) (ps : List (String × ℚ)),
      (ps.map (·.2)).sum = 100 →
      (ms.map fun m => ((ps.lookup m.id).getD 0 : ℚ)).sum = 100 →
      ∃ r, calculateCustomSplit (some ⟨some ms⟩) (some ps) = Except.ok r ∧
        |(r.memberCalculations.map (·.amountPerPerson)).sum - r.totals.totalCost| ≤
          (ms.length : ℚ) / 200 := by
  intro ms ps hsum hcover
  have hok : calculateCustomSplit (some ⟨some ms⟩) (some ps) = Except.ok
      { memberCalculations := (calculateMemberCosts ms).map
          (customCalc ps (calculateSessionTotals (calculateMemberCosts ms)))
        totals := calculateSessionTotals (calculateMemberCosts ms)
        summary := generateSummary ((calculateMemberCosts ms).map
          (customCalc ps (calculateSessionTotals (calculateMemberCosts ms)))) } := by
    simp only [calculateCustomSplit, hsum]
    norm_num
  refine ⟨_, hok, ?_⟩
  dsimp only
  set totals := calculateSessionTotals (calculateMemberCosts ms) with htotals
  have hmap : ((calculateMemberCosts ms).map
      (customCalc ps totals)).map (·.amountPerPerson) =
      (calculateMemberCosts ms).map fun m =>
        roundNumber (totals.totalCost * ((ps.lookup m.id).getD 0) / 100) := by
    rw [List.map_map]
    exact List.map_congr_left fun m _ => customCalc_amountPerPerson ps totals m
  rw [hmap]
  have hclose := sum_map_roundNumber_close (calculateMemberCosts ms)
    (fun m => totals.totalCost * ((ps.lookup m.id).getD 0) / 100)
  have hexact : ((calculateMemberCosts ms).map fun m =>
      totals.totalCost * ((ps.lookup m.id).getD 0) / 100).sum = totals.totalCost := by
    have hptwise : ((calculateMemberCosts ms).map fun m =>
        totals.totalCost * ((ps.lookup m.id).getD 0) / 100).sum =
        ((calculateMemberCosts ms).map fun m =>
          (totals.totalCost / 100) * ((ps.lookup m.id).getD 0)).sum := by
      congr 1
      exact List.map_congr_left fun m _ => by ring
    rw [hptwise, List.sum_map_mul_left]
    have hpcts : ((calculateMemberCosts ms).map fun m => ((ps.lookup m.id).getD 0 : ℚ)).sum =
        (ms.map fun m => ((ps.lookup m.id).getD 0 : ℚ)).sum := by
      simp only [calculateMemberCosts, List.map_map]
      rfl
    rw [hpcts, hcover]
    ring
  have hlen : (calculateMemberCosts ms).length = ms.length := by
    simp [calculateMemberCosts]
  rw [hlen] at hclose
  calc |((calculateMemberCosts ms).map fun m =>
        roundNumber (totals.totalCost * ((ps.lookup m.id).getD 0) / 100)).sum -
          totals.totalCost|
      = |((calculateMemberCosts ms).map fun m =>
          roundNumber (totals.totalCost * ((ps.lookup m.id).getD 0) / 100)).sum -
            ((calculateMemberCosts ms).map fun m =>
              totals.totalCost * ((ps.lookup m.id).getD 0) / 100).sum| := by rw [hexact]
    _ ≤ (ms.length : ℚ) / 200 := hclose

/-- Four members, one of whom spent exactly 1; percentages 0.5 / 0.5 / 0.5 /
98.5 sum to exactly 100 and cover every id. -/
def fourMembers : List Member :=
  [⟨"a", "A", [⟨"i", .str "1"⟩], .num 0, none⟩,
   ⟨"b", "B", [], .num 0, none⟩,
   ⟨"c", "C", [], .num 0, none⟩,
   ⟨"d", "D", [], .num 0, none⟩]

/-- The percentages for `fourMembers`. -/
def fourPcts : List (String × ℚ) :=
  [("a", 1 / 2), ("b", 1 / 2), ("c", 1 / 2), ("d", 197 / 2)]

set_option maxHeartbeats 1000000 in
lemma fourMembers_mcs : calculateMemberCosts fourMembers =
    [⟨"a", "A", [⟨"i", .str "1"⟩], 0, none, 1, 1⟩,
     ⟨"b", "B", [], 0, none, 0, 0⟩,
     ⟨"c", "C", [], 0, none, 0, 0⟩,
     ⟨"d", "D", [], 0, none, 0, 0⟩] := by
  simp [calculateMemberCosts, fourMembers, parse_str_one, parse_num_eq_zero]
  norm_num [roundNumber]

set_option maxHeartbeats 1000000 in
lemma fourMembers_totals : calculateSessionTotals (calculateMemberCosts fourMembers) =
    ⟨1, 0, 4, 1, 1 / 4, 1 / 4, 1⟩ := by
  rw [fourMembers_mcs]
  norm_num [calculateSessionTotals, roundNumber]

set_option maxHeartbeats 1600000 in
/-- Counterexample to claim C6 as stated: percentages `{a: 0.5, b: 0.5,
c: 0.5, d: 98.5}` sum to exactly 100, yet on a session with total cost 1 the
three half-percent shares (0.005) each round up to 0.01 and the 98.5% share
(0.985) rounds up to 0.99, so the amounts per person sum to 1.02, missing
`totals.totalCost = 1` by 0.02 > 0.01. -/
theorem customSplit_sum_off_by_two_cents :
    ((fourPcts.map (·.2)).sum = 100) ∧
    (calculateCustomSplit (some ⟨some fourMembers⟩) (some fourPcts)).map
        (fun r => ((r.memberCalculations.map (·.amountPerPerson)).sum, r.totals.totalCost)) =
      Except.ok ((51 / 50 : ℚ), (1 : ℚ)) ∧
    ¬ (|(51 / 50 : ℚ) - 1| ≤ 1 / 100) := by
  have hsum : (fourPcts.map (·.2)).sum = 100 := by
    norm_num [fourPcts]
  have habs : |(51 / 50 : ℚ) - 1| = 1 / 50 := by
    rw [show (51 / 50 : ℚ) - 1 = 1 / 50 by norm_num]
    exact abs_of_pos (by norm_num)
  refine ⟨hsum, ?_, by rw [habs]; norm_num⟩
  have hok : calculateCustomSplit (some ⟨some fourMembers⟩) (some fourPcts) = Except.ok
      { memberCalculations := (calculateMemberCosts fourMembers).map
          (customCalc fourPcts (calculateSessionTotals (calculateMemberCosts fourMembers)))
        totals := calculateSessionTotals (calculateMemberCosts fourMembers)
        summary := generateSummary ((calculateMemberCosts fourMembers).map
          (customCalc fourPcts (calculateSessionTotals (calculateMemberCosts fourMembers)))) } := by
    simp only [calculateCustomSplit, hsum]
    norm_num
  rw [hok]
  rw [Except.map]
  dsimp only
  rw [fourMembers_totals, fourMembers_mcs]
  have la : fourPcts.lookup "a" = some (1 / 2) := by simp [fourPcts, List.lookup]
  have lb : fourPcts.lookup "b" = some (1 / 2) := by simp [fourPcts, List.lookup]
  have lc : fourPcts.lookup "c" = some (1 / 2) := by simp [fourPcts, List.lookup]
  have ld : fourPcts.lookup "d" = some (197 / 2) := by simp [fourPcts, List.lookup]
  have h200 : |(1 : ℚ) / 200| = 1 / 200 := abs_of_pos (by norm_num)
  have h985 : |(197 : ℚ) / 200| = 197 / 200 := abs_of_pos (by norm_num)
  norm_num [customCalc, la, lb, lc, ld, roundNumber, h200, h985]

/-- Witness for the amended claim C6: two members with ids `a`, `b` and
percentages 60/40 — both sums are 100, the call succeeds and the amounts per
person sum to the total cost within `2/200`. -/
theorem customSplit_sum_close_witness :
    ((([("a", (60 : ℚ)), ("b", 40)] : List (String × ℚ)).map (·.2)).sum = 100) ∧
    ((([⟨"a", "A", [], .num 0, none⟩, ⟨"b", "B", [], .num 0, none⟩] : List Member).map fun m =>
        ((([("a", (60 : ℚ)), ("b", 40)] : List (String × ℚ)).lookup m.id).getD 0 : ℚ)).sum = 100) ∧
    ∃ r, calculateCustomSplit
        (some ⟨some [⟨"a", "A", [], .num 0, none⟩, ⟨"b", "B", [], .num 0, none⟩]⟩)
        (some [("a", 60), ("b", 40)]) = Except.ok r ∧
      |(r.memberCalculations.map (·.amountPerPerson)).sum - r.totals.totalCost| ≤
        (([⟨"a", "A", [], .num 0, none⟩, ⟨"b", "B", [], .num 0, none⟩] : List Member).length : ℚ)
          / 200 := by
  have h1 : ((([("a", (60 : ℚ)), ("b", 40)] : List (String × ℚ)).map (·.2)).sum = 100) := by
    norm_num
  have h2 : ((([⟨"a", "A", [], .num 0, none⟩, ⟨"b", "B", [], .num 0, none⟩] : List Member).map
      fun m => ((([("a", (60 : ℚ)), ("b", 40)] : List (String × ℚ)).lookup m.id).getD 0 : ℚ)).sum
        = 100) := by
    simp [List.lookup]
    norm_num
  exact ⟨h1, h2, customSplit_sum_close _ _ h1 h2⟩

lemma foldl_min_le_of_mem : ∀ (cs : List ℚ) (c x : ℚ), x ∈ c :: cs → cs.foldl min c ≤ x := by
  intro cs
  induction cs with
  | nil =>
    intro c x hx
    simp only [List.mem_cons, List.not_mem_nil, or_false] at hx
    simp [hx]
  | cons y ys ih =>
    intro c x hx
    simp only [List.foldl_cons]
    rcases List.mem_cons.mp hx with rfl | hx'
    · exact le_trans (ih (min x y) (min x y) (List.mem_cons_self _ _)) (min_le_left x y)
    · rcases List.mem_cons.mp hx' with rfl | hx''
      · exact le_trans (ih (min c x) (min c x) (List.mem_cons_self _ _)) (min_le_right c x)
      · exact ih (min c y) x (List.mem_cons_of_mem _ hx'')

lemma le_foldl_max_of_mem : ∀ (cs : List ℚ) (c x : ℚ), x ∈ c :: cs → x ≤ cs.foldl max c := by
  intro cs
  induction cs with
  | nil =>
    intro c x hx
    simp only [List.mem_cons, List.not_mem_nil, or_false] at hx
    simp [hx]
  | cons y ys ih =>
    intro c x hx
    simp only [List.foldl_cons]
    rcases List.mem_cons.mp hx with rfl | hx'
    · exact le_trans (le_max_left x y) (ih (max x y) (max x y) (List.mem_cons_self _ _))
    · rcases List.mem_cons.mp hx' with rfl | hx''
      · exact le_trans (le_max_right c x) (ih (max c x) (max c x) (List.mem_cons_self _ _))
      · exact ih (max c y) x (List.mem_cons_of_mem _ hx'')

lemma countP_range_eq (n k : ℕ) :
    (List.range n).countP (fun i => decide (i = k)) = if k < n then 1 else 0 := by
  induction n with
  | zero => simp
  | succ n ih =>
    rw [List.range_succ, List.countP_append, ih]
    simp only [List.countP_cons, List.countP_nil]
    by_cases h : k < n
    · have hne : (n = k) = False := by simp; omega
      simp [h, hne, Nat.lt_succ_of_lt h]
    · by_cases hk : k = n
      · subst hk
        simp [h, Nat.lt_succ_self]
      · have hne : (n = k) = False := by simp; omega
        have : ¬ k < n + 1 := by omega
        simp [h, hne, this]

set_option maxHeartbeats 1000000 in
/-- Claim C7 (amended): the cost pipeline sorts the positive session costs
ascending and hands them to `generateCostDistribution`, which builds exactly
`min 10 n` equal-width buckets over `[min, max]`, each carrying its
membership count (over the half-open range `[bucketMin, bucketMax)`) and
percentage share.  Because the ranges are half-open, every cost strictly
below the maximum is counted in exactly one bucket while costs equal to the
maximum fall in no bucket; the degenerate cases (no costs, a single cost)
give an empty or single-bucket distribution without error. -/
theorem costDistribution_buckets :
    (∀ (c : ℚ) (cs : List ℚ),
      (generateCostDistribution (c :: cs)).length = min 10 (c :: cs).length ∧
      (∀ b ∈ generateCostDistribution (c :: cs),
        b.hi - b.lo = (cs.foldl max c - cs.foldl min c) / ((min 10 (c :: cs).length : ℕ) : ℚ) ∧
        b.count = (c :: cs).countP (fun x => decide (b.lo ≤ x ∧ x < b.hi)) ∧
        b.percentage = (b.count : ℚ) / (((c :: cs).length : ℕ) : ℚ) * 100) ∧
      (∀ x ∈ c :: cs, x < cs.foldl max c →
        (generateCostDistribution (c :: cs)).countP
          (fun b => decide (b.lo ≤ x ∧ x < b.hi)) = 1) ∧
      (∀ x ∈ c :: cs, ¬ x < cs.foldl max c →
        (generateCostDistribution (c :: cs)).countP
          (fun b => decide (b.lo ≤ x ∧ x < b.hi)) = 0)) ∧
    generateCostDistribution ([] : List ℚ) = [] ∧
    (∀ sessions : List AnalSession, (generateCostAnalytics sessions).distribution =
      generateCostDistribution (sortAsc (positiveSessionCosts sessions))) := by
  refine ⟨?_, rfl, ?_⟩
  swap
  · intro sessions
    by_cases hemp : (positiveSessionCosts sessions).isEmpty
    · have hnil : positiveSessionCosts sessions = [] := by
        rwa [List.isEmpty_iff] at hemp
      simp [generateCostAnalytics, hnil, sortAsc, show generateCostDistribution ([] : List ℚ) = [] from rfl]
    · simp only [generateCostAnalytics, hemp, Bool.false_eq_true, if_false]
  intro c cs
  have hd : generateCostDistribution (c :: cs) = (List.range (min 10 (c :: cs).length)).map fun i =>
      { lo := cs.foldl min c + (i : ℚ) *
          ((cs.foldl max c - cs.foldl min c) / ((min 10 (c :: cs).length : ℕ) : ℚ))
        hi := cs.foldl min c + ((i : ℚ) + 1) *
          ((cs.foldl max c - cs.foldl min c) / ((min 10 (c :: cs).length : ℕ) : ℚ))
        count := (c :: cs).countP fun cost =>
          decide (cs.foldl min c + (i : ℚ) *
              ((cs.foldl max c - cs.foldl min c) / ((min 10 (c :: cs).length : ℕ) : ℚ)) ≤ cost ∧
            cost < cs.foldl min c + ((i : ℚ) + 1) *
              ((cs.foldl max c - cs.foldl min c) / ((min 10 (c :: cs).length : ℕ) : ℚ)))
        percentage := (((c :: cs).countP fun cost =>
          decide (cs.foldl min c + (i : ℚ) *
              ((cs.foldl max c - cs.foldl min c) / ((min 10 (c :: cs).length : ℕ) : ℚ)) ≤ cost ∧
            cost < cs.foldl min c + ((i : ℚ) + 1) *
              ((cs.foldl max c - cs.foldl min c) /
                ((min 10 (c :: cs).length : ℕ) : ℚ))) : ℕ) : ℚ) /
            (((c :: cs).length : ℕ) : ℚ) * 100 } := by
    unfold generateCostDistribution
    rfl
  set n := (c :: cs).length with hn
  set B := min 10 n with hB
  set minC := cs.foldl min c with hminC
  set maxC := cs.foldl max c with hmaxC
  set size := (maxC - minC) / (B : ℚ) with hsize
  have hB1 : 1 ≤ B := by
    have : 1 ≤ n := by simp [hn]
    omega
  refine ⟨?_, ?_, ?_, ?_⟩
  · rw [hd]
    simp
  · intro b hb
    rw [hd] at hb
    simp only [List.mem_map, List.mem_range] at hb
    obtain ⟨i, _, rfl⟩ := hb
    refine ⟨by ring, rfl, rfl⟩
  · intro x hx hlt
    have hminle : minC ≤ x := foldl_min_le_of_mem cs c x hx
    have hrange : 0 < maxC - minC := by linarith
    have hBpos : (0 : ℚ) < (B : ℚ) := by
      exact_mod_cast Nat.lt_of_lt_of_le Nat.zero_lt_one hB1
    have hsizepos : 0 < size := div_pos hrange hBpos
    have hBsize : (B : ℚ) * size = maxC - minC := by
      rw [hsize]
      field_simp
    rw [hd, List.countP_map]
    set y := (x - minC) / size with hy
    have hy0 : 0 ≤ y := div_nonneg (by linarith) hsizepos.le
    have hfl0 : 0 ≤ ⌊y⌋ := Int.floor_nonneg.mpr hy0
    set k := ⌊y⌋.toNat with hk
    have hkz : (k : ℤ) = ⌊y⌋ := Int.toNat_of_nonneg hfl0
    have hcongr : ∀ i ∈ List.range B,
        ((fun b : CostBucket => decide (b.lo ≤ x ∧ x < b.hi)) ∘ fun i : ℕ =>
          ({ lo := minC + (i : ℚ) * size
             hi := minC + ((i : ℚ) + 1) * size
             count := (c :: cs).countP fun cost =>
               decide (minC + (i : ℚ) * size ≤ cost ∧ cost < minC + ((i : ℚ) + 1) * size)
             percentage := (((c :: cs).countP fun cost =>
               decide (minC + (i : ℚ) * size ≤ cost ∧
                 cost < minC + ((i : ℚ) + 1) * size) : ℕ) : ℚ) /
                 ((n : ℕ) : ℚ) * 100 } : CostBucket)) i = true ↔
          (decide (i = k)) = true := by
      intro i _
      simp only [Function.comp, decide_eq_true_eq]
      constructor
      · rintro ⟨h1, h2⟩
        have hle : (i : ℚ) ≤ y := by
          rw [hy, le_div_iff₀ hsizepos]
          linarith
        have hlt2 : y < (i : ℚ) + 1 := by
          rw [hy, div_lt_iff₀ hsizepos]
          nlinarith
        have : ⌊y⌋ = (i : ℤ) := by
          rw [Int.floor_eq_iff]
          constructor
          · exact_mod_cast hle
          · push_cast
            exact hlt2
        omega
      · rintro rfl
        have hfl : (⌊y⌋ : ℚ) ≤ y := Int.floor_le y
        have hfl2 : y < (⌊y⌋ : ℚ) + 1 := Int.lt_floor_add_one y
        have hkq : ((k : ℕ) : ℚ) = ((⌊y⌋ : ℤ) : ℚ) := by exact_mod_cast hkz
        constructor
        · have : ((k : ℕ) : ℚ) ≤ y := by rw [hkq]; exact hfl
          rw [le_div_iff₀ hsizepos] at this
          linarith
        · have : y < ((k : ℕ) : ℚ) + 1 := by rw [hkq]; exact hfl2
          rw [div_lt_iff₀ hsizepos] at this
          nlinarith
    rw [List.countP_congr hcongr, countP_range_eq]
    have hyB : y < (B : ℚ) := by
      rw [hy, div_lt_iff₀ hsizepos]
      rw [mul_comm] at hBsize ⊢
      rw [hBsize]
      linarith
    have hkB : k < B := by
      have : ⌊y⌋ < (B : ℤ) := by
        rw [Int.floor_lt]
        exact_mod_cast hyB
      omega
    simp [hkB]
  · intro x hx hnlt
    have hxmax : x ≤ maxC := le_foldl_max_of_mem cs c x hx
    have hminmax : minC ≤ maxC :=
      le_trans (foldl_min_le_of_mem cs c c (List.mem_cons_self c cs))
        (le_foldl_max_of_mem cs c c (List.mem_cons_self c cs))
    have hsizenn : 0 ≤ size := by
      apply div_nonneg (by linarith)
      positivity
    rw [hd, List.countP_map]
    rw [List.countP_eq_zero]
    intro i hi
    simp only [List.mem_range] at hi
    simp only [Function.comp, decide_eq_true_eq, not_and, not_lt]
    intro _
    have h1 : ((i : ℚ) + 1) * size ≤ (B : ℚ) * size := by
      apply mul_le_mul_of_nonneg_right _ hsizenn
      have : (i : ℚ) + 1 ≤ (B : ℚ) := by exact_mod_cast Nat.succ_le_of_lt hi
      exact this
    have hBsize : (B : ℚ) * size = maxC - minC := by
      rw [hsize]
      field_simp
    rw [hBsize] at h1
    linarith [not_lt.mp hnlt]

/-- Witness for the amended claim C7: on the costs `[1, 2, 4]` the
distribution has `min 10 3 = 3` buckets, and the non-maximal cost 2 is
counted in exactly one bucket. -/
theorem costDistribution_buckets_witness :
    (generateCostDistribution [(1 : ℚ), 2, 4]).length = min 10 ([(1 : ℚ), 2, 4]).length ∧
    ((2 : ℚ) ∈ [(1 : ℚ), 2, 4]) ∧ ((2 : ℚ) < [(2 : ℚ), 4].foldl max 1) ∧
    (generateCostDistribution [(1 : ℚ), 2, 4]).countP
      (fun b => decide (b.lo ≤ 2 ∧ (2 : ℚ) < b.hi)) = 1 := by
  have hmem : (2 : ℚ) ∈ (1 : ℚ) :: [(2 : ℚ), 4] := by simp
  have hlt : (2 : ℚ) < [(2 : ℚ), 4].foldl max 1 := by
    simp only [List.foldl_cons, List.foldl_nil]
    rw [show max (max (1 : ℚ) 2) 4 = 4 by norm_num [max_def]]
    norm_num
  exact ⟨(costDistribution_buckets.1 1 [2, 4]).1, hmem, hlt,
    (costDistribution_buckets.1 1 [2, 4]).2.2.1 2 hmem hlt⟩

set_option maxHeartbeats 1000000 in
/-- Counterexample to claim C7 as stated: on the positive costs `[1, 2]` the
two equal-width buckets are `[1, 1.5)` and `[1.5, 2)`; the maximal cost 2
falls in neither (the upper bound is exclusive), so the counts sum to 1, not
2 — not every cost is counted in exactly one bucket. -/
theorem costDistribution_misses_max :
    (generateCostDistribution [(1 : ℚ), 2]).map (fun b => (b.lo, b.hi, b.count)) =
      [((1 : ℚ), (3 / 2 : ℚ), 1), ((3 / 2 : ℚ), (2 : ℚ), 0)] ∧
    ((generateCostDistribution [(1 : ℚ), 2]).map (·.count)).sum = 1 ∧
    (generateCostDistribution [(1 : ℚ), 2]).countP
      (fun b => decide (b.lo ≤ 2 ∧ (2 : ℚ) < b.hi)) = 0 ∧
    (1 : ℕ) ≠ 2 := by
  have hr : List.range (min 10 ([(1 : ℚ), 2]).length) = [0, 1] := by decide
  have hmin : [(2 : ℚ)].foldl min 1 = 1 := by
    simp only [List.foldl_cons, List.foldl_nil]
    norm_num [min_def]
  have hmax : [(2 : ℚ)].foldl max 1 = 2 := by
    simp only [List.foldl_cons, List.foldl_nil]
    norm_num [max_def]
  have hd : generateCostDistribution [(1 : ℚ), 2] =
      [⟨1, 3 / 2, 1, 50⟩, ⟨3 / 2, 2, 0, 0⟩] := by
    unfold generateCostDistribution
    simp only [hmin, hmax, hr, List.map_cons, List.map_nil, List.countP_cons, List.countP_nil]
    norm_num
  rw [hd]
  norm_num

/-- Witness for the amended claim C4: the bound instantiated at the concrete
scenario A session. -/
theorem suggestions_sum_bounded_witness :
    ((generatePaymentSuggestions (calculateSession (some scenarioASession))).map (·.amount)).sum ≤
      min ((((calculateSession (some scenarioASession)).memberCalculations.filter
            (·.status == Status.needs_to_pay)).map (·.finalAmount)).sum)
        ((((calculateSession (some scenarioASession)).memberCalculations.filter
            (·.status == Status.gets_refund)).map (·.finalAmount)).sum) ∧
    ((∀ e ∈ (settleLoop (payerEntries (calculateSession (some scenarioASession)))
          (receiverEntries (calculateSession (some scenarioASession)))).finalPayers,
        e.amount ≤ 1 / 100) ∨
      (∀ e ∈ (settleLoop (payerEntries (calculateSession (some scenarioASession)))
          (receiverEntries (calculateSession (some scenarioASession)))).finalReceivers,
        e.amount ≤ 1 / 100)) :=
  suggestions_sum_bounded_one_side_settled (some scenarioASession)
